import Mathlib

/-!
Verification of the opportunity ranking/filtering pipeline of this repository:
a shallow embedding of the relevant parts of src/searchService.js and
src/OpportunityCard.jsx (string hashing, compatibility scoring, keyword
extraction, filtering and sorting), together with theorems settling the
specification claims about them.

Strings are modelled by Lean strings; character codes (JavaScript
charCodeAt, i.e. UTF-16 code units) are modelled by Char.toNat, which
agrees on the Basic Multilingual Plane and in particular on all ASCII
data the repository manipulates.
-/

namespace AV

/-! ### 32-bit signed integer semantics (JavaScript bitwise operators) -/

/-- Reduce an integer to the 32-bit signed twos-complement range, as the
JavaScript ToInt32 conversion does (this conversion is performed by the
bitwise operators appearing in the source). -/
def toInt32 (x : Int) : Int :=
  if x % 4294967296 < 2147483648 then x % 4294967296
  else x % 4294967296 - 4294967296

theorem toInt32_congr {x y : Int} (h : x % 4294967296 = y % 4294967296) :
    toInt32 x = toInt32 y := by
  unfold toInt32
  rw [h]

theorem toInt32_emod (x : Int) : toInt32 x % 4294967296 = x % 4294967296 := by
  unfold toInt32
  split <;> omega

/-! ### The hash function

`hashCode` in src/OpportunityCard.jsx (lines 687-695):
each step computes `((hash << 5) - hash) + char` and then truncates with
`hash = hash & hash`.  The shift itself also truncates to 32 bits, so one
step is `toInt32 (toInt32 (h * 32) - h + c)`. -/

def hashStep (h : Int) (c : Nat) : Int :=
  toInt32 (toInt32 (h * 32) - h + (c : Int))

def jsHashAcc (s : List Char) : Int :=
  s.foldl (fun h c => hashStep h c.toNat) 0

/-- hashCode from src/OpportunityCard.jsx: `Math.abs` of the wrapped
accumulator. -/
def hashCode (s : String) : Nat :=
  (jsHashAcc s.data).natAbs

/-- generateScore from src/searchService.js (lines 257-265 use the same
accumulator loop and return `Math.abs(hash % 100)`; JavaScript `%` is
truncated remainder, i.e. `Int.tmod`). -/
def generateScore (s : String) : Nat :=
  ((jsHashAcc s.data).tmod 100).natAbs

/-- The accumulator update exactly as the specification claim words it:
`hash = (hash * 31 - hash) + codepoint` under 32-bit wraparound.
This definition follows the claim text, to be compared with `jsHashAcc`,
which follows the source. -/
def claimHashAcc (s : List Char) : Int :=
  s.foldl (fun h c => toInt32 (h * 31 - h + (c.toNat : Int))) 0

def claimHash (s : String) : Nat :=
  (claimHashAcc s.data).natAbs

/-- The amended accumulator update: `hash = (hash * 32 - hash) + codepoint`
under 32-bit wraparound (the source shifts left by 5, multiplying by 32,
not by 31). -/
def amendedHashAcc (s : List Char) : Int :=
  s.foldl (fun h c => toInt32 (h * 32 - h + (c.toNat : Int))) 0

def amendedHash (s : String) : Nat :=
  (amendedHashAcc s.data).natAbs

theorem hashStep_eq_amended (h : Int) (c : Nat) :
    hashStep h c = toInt32 (h * 32 - h + (c : Int)) := by
  unfold hashStep
  apply toInt32_congr
  have e : toInt32 (h * 32) % 4294967296 = (h * 32) % 4294967296 := toInt32_emod _
  omega

theorem jsHashAcc_eq_amended (s : List Char) :
    jsHashAcc s = amendedHashAcc s := by
  unfold jsHashAcc amendedHashAcc
  congr 1
  funext h c
  exact hashStep_eq_amended h c.toNat

/-! ### Data model

Records mirror the fields the pipeline reads.  A JavaScript field that may
be `undefined` is an `Option`; `subjects` and `requirements` are arrays of
strings in every code path that reaches the pipeline. -/

structure Opportunity where
  id : String
  title : Option String
  university : Option String
  department : Option String
  description : Option String
  subjects : Option (List String)
  requirements : Option (List String)
  deadline : Option String
  postedDate : Option String
  fullyFunded : Bool
  international : Bool
  supervisor : Option String
deriving DecidableEq

structure UserProfile where
  id : Option String
  interests : Option (List String)
  sop : Option String
deriving DecidableEq

/-- The filter configuration (src/OpportunityCard.jsx lines 507-513).  The
`subjects` entry of the source object is never read by the predicates and
is omitted. -/
structure FilterConfig where
  fullyFunded : Bool
  international : Bool
  hasDeadline : Bool
  hasSupervisor : Bool
deriving DecidableEq

/-! ### JavaScript string helpers -/

/-- Truthiness of a string-or-absent JavaScript value: `undefined` and the
empty string are falsy. -/
def truthy : Option String → Bool
  | none => false
  | some s => s != ""

/-- JavaScript `x || d` for a string-or-absent `x`. -/
def jsOr (x : Option String) (d : String) : String :=
  match x with
  | none => d
  | some s => if s == "" then d else s

/-- Lower-casing, character by character (JavaScript toLowerCase; the
repository only lower-cases ASCII text, on which Char.toLower agrees). -/
def strToLower (s : String) : String :=
  String.mk (s.data.map Char.toLower)

/-- Does the second list occur at the head of the first? -/
def beginsWith : List Char → List Char → Bool
  | _, [] => true
  | [], _ :: _ => false
  | a :: as, b :: bs => b == a && beginsWith as bs

/-- JavaScript `s.includes(p)`: `p` occurs contiguously in `s`. -/
def listIncludes (p : List Char) : List Char → Bool
  | [] => beginsWith [] p
  | c :: t => beginsWith (c :: t) p || listIncludes p t

def strIncludes (s p : String) : Bool :=
  listIncludes p.data s.data

/-! ### CompatibilityScorer (src/searchService.js lines 250-291) -/

/-- The nested interest/subject loop of calculateCompatibilityScore: for
each ordered pair it adds 5 when one string contains the other.  Both
input lists have already been lower-cased, as in the source. -/
def interestBonusLoop (userInterests oppSubjects : List String) : Int :=
  userInterests.foldl
    (fun acc interest =>
      oppSubjects.foldl
        (fun acc2 subject =>
          if strIncludes subject interest || strIncludes interest subject
          then acc2 + 5 else acc2)
        acc)
    0

/-- calculateCompatibilityScore from src/searchService.js: default 50 when
either argument is missing, otherwise clamp(base + capped bonus, 0, 100). -/
def calculateCompatibilityScore
    (opportunity : Option Opportunity) (userProfile : Option UserProfile) : Int :=
  match opportunity, userProfile with
  | some opp, some prof =>
      let combined := opp.id ++ "-" ++ jsOr prof.id "user123"
      let baseScore : Int := (generateScore combined : Int)
      let rawBonus : Int :=
        match prof.interests, opp.subjects with
        | some interests, some subjects =>
            interestBonusLoop (interests.map strToLower)
              (subjects.map strToLower)
        | _, _ => 0
      let interestBonus := min rawBonus 20
      min (max (baseScore + interestBonus) 0) 100
  | _, _ => 50

/-! ### The scorer as the specification words it -/

/-- boundedHash from spec section 4.1: `min + (hash(text) % (max - min))`. -/
def boundedHash (text : String) (lo hi : Nat) : Nat :=
  lo + hashCode text % (hi - lo)

/-- One (interest, subject) pair matches when, after lower-casing, one
string contains the other as a substring. -/
def pairMatchCI (interest subject : String) : Bool :=
  strIncludes (strToLower subject) (strToLower interest)
    || strIncludes (strToLower interest) (strToLower subject)

/-- Number of (user interest, opportunity subject) pairs in which one
case-insensitively contains the other. -/
def matchingPairCount (interests subjects : List String) : Nat :=
  (interests.map (fun i => subjects.countP (fun s => pairMatchCI i s))).sum

/-- The compatibility score exactly as claim C1 states it:
clamp(boundedHash(id-"-"-userId, 0, 100) + min(5 * matching pairs, 20), 0, 100). -/
def specCompatScore (opp : Opportunity) (prof : UserProfile) : Int :=
  let base : Int := (boundedHash (opp.id ++ "-" ++ jsOr prof.id "user123") 0 100 : Nat)
  let bonus : Int :=
    ((min (5 * matchingPairCount (prof.interests.getD []) (opp.subjects.getD [])) 20 : Nat) : Int)
  min (max (base + bonus) 0) 100

/-! ### Lemmas relating the source scorer to the specification formula -/

theorem natAbs_tmod (a : Int) (n : Nat) :
    (a.tmod (n : Int)).natAbs = a.natAbs % n := by
  cases a with
  | ofNat m =>
      simp [Int.tmod]
      omega
  | negSucc m =>
      simp [Int.tmod]
      have h : ((m : Int) + 1) = ((m + 1 : Nat) : Int) := by push_cast; ring
      rw [h]
      omega

theorem generateScore_eq_boundedHash (s : String) :
    generateScore s = boundedHash s 0 100 := by
  unfold generateScore boundedHash hashCode
  simpa using natAbs_tmod (jsHashAcc s.data) 100

theorem foldl_add5 {α : Type} (p : α → Bool) (l : List α) (acc : Int) :
    l.foldl (fun a x => if p x then a + 5 else a) acc
      = acc + 5 * (l.countP p : Nat) := by
  induction l generalizing acc with
  | nil => simp
  | cons x t ih =>
      cases h : p x <;> simp [List.foldl_cons, List.countP_cons, h, ih] <;> omega

theorem interestBonusLoop_eq (is ss : List String) :
    interestBonusLoop is ss
      = 5 * ((is.map (fun i => ss.countP
          (fun s => strIncludes s i || strIncludes i s))).sum : Nat) := by
  unfold interestBonusLoop
  have main : ∀ (l : List String) (acc : Int),
      l.foldl (fun acc2 interest => ss.foldl
          (fun a subject =>
            if strIncludes subject interest || strIncludes interest subject
            then a + 5 else a) acc2) acc
        = acc + 5 * ((l.map (fun i => ss.countP
            (fun s => strIncludes s i || strIncludes i s))).sum : Nat) := by
    intro l
    induction l with
    | nil => intro acc; simp
    | cons i t ih =>
        intro acc
        rw [List.foldl_cons,
          foldl_add5 (fun s => strIncludes s i || strIncludes i s) ss acc, ih]
        simp [List.map_cons, List.sum_cons]
        omega
  simpa using main is 0

theorem sum_map_zero {α : Type} (l : List α) :
    (l.map (fun _ => (0 : Nat))).sum = 0 := by
  induction l with
  | nil => rfl
  | cons x t ih => simp [ih]

/-- Claim C1: for non-null arguments the compatibility score is exactly
clamp(boundedHash(oppId-"-"-userId, 0, 100) + min(5 * matching pairs, 20),
0, 100), and it always lies in the interval from 0 to 100. -/
theorem calculateCompatibilityScore_spec (opp : Opportunity) (prof : UserProfile) :
    calculateCompatibilityScore (some opp) (some prof) = specCompatScore opp prof
      ∧ 0 ≤ specCompatScore opp prof ∧ specCompatScore opp prof ≤ 100 := by
  refine ⟨?_, ?_, ?_⟩
  · simp only [calculateCompatibilityScore, specCompatScore]
    rw [generateScore_eq_boundedHash]
    congr 1
    congr 1
    congr 1
    cases hi : prof.interests with
    | none =>
        cases hs : opp.subjects <;>
          simp [matchingPairCount, hi, hs, sum_map_zero]
    | some interests =>
        cases hs : opp.subjects with
        | none =>
            simp [matchingPairCount, hi, hs, sum_map_zero, List.countP_nil]
        | some subjects =>
            simp only [hi, hs, Option.getD_some]
            rw [interestBonusLoop_eq]
            have cnt : ((interests.map strToLower).map (fun i =>
                (subjects.map strToLower).countP
                  (fun s => strIncludes s i || strIncludes i s))).sum
                = matchingPairCount interests subjects := by
              unfold matchingPairCount pairMatchCI
              simp only [List.countP_map, List.map_map, Function.comp_def]
            rw [cnt]
            push_cast [Nat.cast_min]
            ring_nf
  · simp only [specCompatScore]
    exact le_min (le_max_right _ _) (by norm_num)
  · simp only [specCompatScore]
    exact min_le_right _ _

/-- Claim C8: a missing opportunity or a missing profile yields the fixed
default score 50. -/
theorem calculateCompatibilityScore_default (o : Opportunity) (p : UserProfile) :
    calculateCompatibilityScore (some o) none = 50
      ∧ calculateCompatibilityScore none (some p) = 50
      ∧ calculateCompatibilityScore none none = 50 :=
  ⟨rfl, rfl, rfl⟩

/-- Claim C2, counterexample: the claimed recurrence
hash = (hash * 31 - hash) + codepoint does not match the source, whose
shift-by-five computes hash * 32 - hash; at the concrete input "ab" the
source hash is 3105 while the claimed recurrence yields 3008. -/
theorem hashCode_claim_formula_counterexample :
    hashCode "ab" = 3105 ∧ claimHash "ab" = 3008 ∧ hashCode "ab" ≠ claimHash "ab" := by
  refine ⟨by decide, by decide, by decide⟩

/-- Claim C2 (amended): the hash folds
hash = (hash * 32 - hash) + codepoint under 32-bit twos-complement
wraparound and returns the absolute value; the hash of the empty string
is 0 (determinism is immediate, the hash being a pure function). -/
theorem hashCode_amended (s : String) :
    hashCode s = amendedHash s ∧ hashCode "" = 0 :=
  ⟨by unfold hashCode amendedHash; rw [jsHashAcc_eq_amended], rfl⟩

/-! ### FilterPipeline (src/OpportunityCard.jsx lines 713-740) -/

/-- The deadline test of the hasDeadline filter (line 735): the field
must be truthy and must differ from the sentinel string
the sentinel deadline string. -/
def deadlineUsable (o : Opportunity) : Bool :=
  match o.deadline with
  | none => false
  | some s => s != "" && s != "Deadline Not Specified"

/-- The search predicate (lines 719-724): the lower-cased query occurs in
the lower-cased title, university, department or description.  The data
model requires these four fields to be present; an absent field is read
as the empty string here. -/
def searchMatches (query : String) (o : Opportunity) : Bool :=
  strIncludes (strToLower (o.title.getD "")) query
    || strIncludes (strToLower (o.university.getD "")) query
    || strIncludes (strToLower (o.department.getD "")) query
    || strIncludes (strToLower (o.description.getD "")) query

/-- ASCII whitespace as JavaScript classifies it (the repository only
ever passes ASCII text; the extra Unicode space characters of the \s
class never occur). -/
def jsIsWs (c : Char) : Bool :=
  c == ' ' || c == '\t' || c == '\n' || c == '\r' || c == '\x0b' || c == '\x0c'

/-- Truthiness of `searchQuery.trim()`: the trimmed string is non-empty
exactly when some character is not whitespace. -/
def trimmedTruthy (s : String) : Bool :=
  s.data.any (fun c => !jsIsWs c)

/-- One conditional filtering stage: `if (flag) filtered = filtered.filter(p)`. -/
def applyFlag (b : Bool) (p : Opportunity → Bool) (m : List Opportunity) :
    List Opportunity :=
  if b then m.filter p else m

/-- The filtering stages of getSortedAndFilteredOpportunities: the search
filter guarded by the trimmed query being truthy, then one filter per
true configuration flag, applied in source order. -/
def filterOpportunities
    (searchQuery : String) (cfg : FilterConfig) (opps : List Opportunity) :
    List Opportunity :=
  applyFlag cfg.hasSupervisor (fun o => truthy o.supervisor)
    (applyFlag cfg.hasDeadline deadlineUsable
      (applyFlag cfg.international (fun o => o.international)
        (applyFlag cfg.fullyFunded (fun o => o.fullyFunded)
          (if trimmedTruthy searchQuery then
            opps.filter (searchMatches (strToLower searchQuery))
          else opps))))

/-- The four flag predicates, conjoined: a false flag imposes nothing. -/
def passesFlags (cfg : FilterConfig) (o : Opportunity) : Bool :=
  (!cfg.fullyFunded || o.fullyFunded)
    && (!cfg.international || o.international)
    && (!cfg.hasDeadline || deadlineUsable o)
    && (!cfg.hasSupervisor || truthy o.supervisor)

/-! ### Stable sorting

JavaScript Array.prototype.sort is stable (ES2019).  For a consistent
numeric comparator its output is the unique stable order, computed here
by a stable insertion sort. -/

/-- Stable insertion into a list sorted descending by key: the new,
earlier element goes before the first element whose key is not greater
than its own, hence before later elements with an equal key. -/
def insertDescBy {α : Type} (key : α → Int) (x : α) : List α → List α
  | [] => [x]
  | y :: ys => if key x < key y then y :: insertDescBy key x ys else x :: y :: ys

/-- Stable descending sort by key. -/
def sortDescBy {α : Type} (key : α → Int) : List α → List α
  | [] => []
  | x :: xs => insertDescBy key x (sortDescBy key xs)

/-! ### Dates

A model of the JavaScript Date constructor restricted to the date-only
ISO form YYYY-MM-DD, the one string format whose parsing ECMA-262 fully
specifies (UTC midnight); every other string is treated as an Invalid
Date (none).  The repository only ever builds dates of this form. -/

def isLeapYear (y : Nat) : Bool :=
  (y % 4 == 0 && y % 100 != 0) || y % 400 == 0

def daysInMonth (y m : Nat) : Nat :=
  if m == 2 then (if isLeapYear y then 29 else 28)
  else if m == 4 || m == 6 || m == 9 || m == 11 then 30
  else 31

def cumulDaysBeforeMonth (y m : Nat) : Nat :=
  (List.range (m - 1)).foldl (fun acc i => acc + daysInMonth y (i + 1)) 0

/-- Leap years among 0, 1, ..., y-1 (year 0 is a leap year). -/
def leapsBefore (y : Nat) : Nat :=
  (y + 3) / 4 - (y + 99) / 100 + (y + 399) / 400

/-- Days from 0000-01-01 to the given proleptic-Gregorian civil date. -/
def daysFromYear0 (y m d : Nat) : Nat :=
  365 * y + leapsBefore y + cumulDaysBeforeMonth y m + (d - 1)

def digitsToNat (cs : List Char) : Nat :=
  cs.foldl (fun a c => a * 10 + (c.toNat - 48)) 0

/-- Milliseconds since the Unix epoch of an ISO YYYY-MM-DD string, none
when the string is not of that shape or the fields are out of range. -/
def parseIsoDateMs (s : String) : Option Int :=
  match s.data with
  | [y1, y2, y3, y4, h1, mo1, mo2, h2, d1, d2] =>
      if h1 == '-' && h2 == '-' && [y1, y2, y3, y4, mo1, mo2, d1, d2].all Char.isDigit then
        let y := digitsToNat [y1, y2, y3, y4]
        let m := digitsToNat [mo1, mo2]
        let d := digitsToNat [d1, d2]
        if 1 ≤ m && m ≤ 12 && 1 ≤ d && d ≤ daysInMonth y m then
          some (((daysFromYear0 y m d : Int) - (daysFromYear0 1970 1 1 : Int)) * 86400000)
        else none
      else none
  | _ => none

/-- JavaScript `a || b` for two string-or-absent values, none when both
are falsy. -/
def firstTruthy (a b : Option String) : Option String :=
  if truthy a then a else if truthy b then b else none

/-- The sort key of the date branch (lines 750-751):
`new Date(a.postedDate || a.deadline || 0)` as a millisecond timestamp;
the numeric fallback 0 denotes the epoch; none is an Invalid Date. -/
def dateKey (o : Opportunity) : Option Int :=
  match firstTruthy o.postedDate o.deadline with
  | some s => parseIsoDateMs s
  | none => some 0

/-- Totalised date key used by the embedded sort; the sort theorems are
stated for inputs whose dates all parse, where the default never shows. -/
def dateKeyTotal (o : Opportunity) : Int :=
  (dateKey o).getD 0

/-- First value for a key in an association list (JavaScript Map lookup;
also used for the word-count object). -/
def findVal {β : Type} : List (String × β) → String → Option β
  | [], _ => none
  | (k, v) :: rest, key => if k == key then some v else findVal rest key

/-- The sort key of the compatibility branch (lines 745-746):
`sortedScores.get(id) || 32`; a missing entry and the falsy score 0 both
fall back to 32. -/
def compatKey (cache : List (String × Nat)) (o : Opportunity) : Int :=
  match findVal cache o.id with
  | some v => if v == 0 then 32 else (v : Int)
  | none => 32

/-- The compatibility key as claim C6 words it, with `?? 32`: only a
missing entry falls back to 32.  This definition follows the claim text,
to be compared with `compatKey`, which follows the source. -/
def claimCompatKey (cache : List (String × Nat)) (o : Opportunity) : Int :=
  match findVal cache o.id with
  | some v => (v : Int)
  | none => 32

def sortByDate (opps : List Opportunity) : List Opportunity :=
  sortDescBy dateKeyTotal opps

def sortByCompatibility (cache : List (String × Nat)) (opps : List Opportunity) :
    List Opportunity :=
  sortDescBy (compatKey cache) opps

/-- getSortedAndFilteredOpportunities (lines 713-757): filter stages, then
the sort selected by sortBy ("date" is the default branch). -/
def getSortedAndFilteredOpportunities
    (searchQuery : String) (cfg : FilterConfig) (sortBy : String)
    (sortedScores : List (String × Nat)) (opps : List Opportunity) :
    List Opportunity :=
  let filtered := filterOpportunities searchQuery cfg opps
  if sortBy == "compatibility" then sortByCompatibility sortedScores filtered
  else sortByDate filtered

/-! ### The bulk per-item score (src/OpportunityCard.jsx lines 665-685) -/

/-- calculateScores: one pass over the opportunities, assigning each new
id the stable score `32 + (hashCode id % (92 - 32))`. -/
def calculateScores (opps : List Opportunity) : List (String × Nat) :=
  opps.foldl
    (fun scores o =>
      if (findVal scores o.id).isSome then scores
      else scores ++ [(o.id, 32 + hashCode o.id % (92 - 32))])
    []

/-! ### Properties of the stable insertion sort -/

theorem insertDescBy_perm {α : Type} (key : α → Int) (x : α) (l : List α) :
    (insertDescBy key x l).Perm (x :: l) := by
  induction l with
  | nil => simp [insertDescBy]
  | cons y ys ih =>
      unfold insertDescBy
      split
      · exact (ih.cons y).trans (List.Perm.swap x y ys)
      · exact List.Perm.refl _

theorem sortDescBy_perm {α : Type} (key : α → Int) (l : List α) :
    (sortDescBy key l).Perm l := by
  induction l with
  | nil => exact List.Perm.refl _
  | cons x xs ih =>
      exact (insertDescBy_perm key x (sortDescBy key xs)).trans (ih.cons x)

theorem insertDescBy_sorted {α : Type} (key : α → Int) (x : α) (l : List α)
    (h : l.Pairwise (fun a b => key b ≤ key a)) :
    (insertDescBy key x l).Pairwise (fun a b => key b ≤ key a) := by
  induction l with
  | nil => simp [insertDescBy]
  | cons y ys ih =>
      rw [List.pairwise_cons] at h
      obtain ⟨hy, hys⟩ := h
      unfold insertDescBy
      split
      · rename_i hlt
        rw [List.pairwise_cons]
        refine ⟨?_, ih hys⟩
        intro z hz
        rcases List.mem_cons.mp ((insertDescBy_perm key x ys).mem_iff.mp hz) with h1 | h2
        · subst h1; exact le_of_lt hlt
        · exact hy z h2
      · rename_i hge
        rw [List.pairwise_cons]
        refine ⟨?_, List.pairwise_cons.mpr ⟨hy, hys⟩⟩
        intro z hz
        rcases List.mem_cons.mp hz with h1 | h2
        · subst h1; omega
        · have := hy z h2; omega

theorem sortDescBy_sorted {α : Type} (key : α → Int) (l : List α) :
    (sortDescBy key l).Pairwise (fun a b => key b ≤ key a) := by
  induction l with
  | nil => simp [sortDescBy]
  | cons x xs ih => exact insertDescBy_sorted key x _ ih

theorem insertDescBy_filter {α : Type} (key : α → Int) (x : α) (l : List α) (v : Int) :
    (insertDescBy key x l).filter (fun z => key z == v)
      = if key x == v then x :: l.filter (fun z => key z == v)
        else l.filter (fun z => key z == v) := by
  induction l with
  | nil => simp [insertDescBy, List.filter_cons]
  | cons y ys ih =>
      unfold insertDescBy
      split
      · rename_i hlt
        by_cases hx : key x = v <;> by_cases hy : key y = v
        · omega
        · simp [List.filter_cons, ih, hx, hy]
        · simp [List.filter_cons, ih, hx, hy]
        · simp [List.filter_cons, ih, hx, hy]
      · by_cases hx : key x = v <;> simp [List.filter_cons, hx]

theorem sortDescBy_filter_stable {α : Type} (key : α → Int) (l : List α) (v : Int) :
    (sortDescBy key l).filter (fun z => key z == v)
      = l.filter (fun z => key z == v) := by
  induction l with
  | nil => rfl
  | cons x xs ih =>
      rw [sortDescBy, insertDescBy_filter, List.filter_cons, ih]

/-! ### Claim C3: the filter pipeline -/

theorem applyFlag_eq (b : Bool) (p : Opportunity → Bool) (m : List Opportunity) :
    applyFlag b p m = m.filter (fun o => !b || p o) := by
  unfold applyFlag
  cases b <;> simp

theorem filterOpportunities_eq (q : String) (cfg : FilterConfig) (l : List Opportunity) :
    filterOpportunities q cfg l
      = (if trimmedTruthy q then l.filter (searchMatches (strToLower q)) else l).filter
          (passesFlags cfg) := by
  unfold filterOpportunities
  generalize (if trimmedTruthy q then l.filter (searchMatches (strToLower q)) else l) = l1
  rw [applyFlag_eq, applyFlag_eq, applyFlag_eq, applyFlag_eq]
  simp only [List.filter_filter]
  apply List.filter_congr
  intro o ho
  simp [passesFlags, Bool.and_comm, Bool.and_left_comm, Bool.and_assoc]

def oppSentinel : Opportunity :=
  ⟨"s1", none, none, none, none, none, none, some "Deadline Not Specified",
    none, false, false, none⟩

def cfgDeadlineOnly : FilterConfig := ⟨false, false, true, false⟩

/-- Claim C3, counterexample: an opportunity whose deadline field is
present but equal to the sentinel deadline string is
dropped by the hasDeadline filter, although the claim says every
opportunity with a present deadline is kept. -/
theorem filter_hasDeadline_counterexample :
    filterOpportunities "" cfgDeadlineOnly [oppSentinel] = []
      ∧ oppSentinel.deadline.isSome = true := by
  decide

/-- Claim C3 (amended): the pipeline is the search filter followed by the
AND of the flag predicates, where hasDeadline keeps an opportunity only
when its deadline is present, non-empty and not the sentinel string; the
output is a sublist of the input (order preserved); with an empty query
and only fullyFunded set it is exactly the fullyFunded subset in input
order. -/
theorem filterOpportunities_spec (q : String) (cfg : FilterConfig) (l : List Opportunity) :
    filterOpportunities q cfg l
        = (if trimmedTruthy q then l.filter (searchMatches (strToLower q)) else l).filter
            (passesFlags cfg)
      ∧ filterOpportunities "" cfg l = l.filter (passesFlags cfg)
      ∧ filterOpportunities "" ⟨true, false, false, false⟩ l
          = l.filter (fun o => o.fullyFunded)
      ∧ (filterOpportunities q cfg l).Sublist l := by
  refine ⟨filterOpportunities_eq q cfg l, ?_, ?_, ?_⟩
  · rw [filterOpportunities_eq, show trimmedTruthy "" = false from rfl]
    rfl
  · rw [filterOpportunities_eq, show trimmedTruthy "" = false from rfl]
    show l.filter (passesFlags ⟨true, false, false, false⟩)
        = l.filter (fun o => o.fullyFunded)
    apply List.filter_congr
    intro o ho
    simp [passesFlags]
  · rw [filterOpportunities_eq]
    refine (List.filter_sublist _).trans ?_
    split
    · exact List.filter_sublist l
    · exact List.Sublist.refl l

/-! ### Claims C5, C6, C7: the sort pipeline -/

def opp1960 : Opportunity :=
  ⟨"a", none, none, none, none, none, none, none, some "1960-01-01",
    false, false, none⟩

def oppNoDate : Opportunity :=
  ⟨"b", none, none, none, none, none, none, none, none, false, false, none⟩

/-- Claim C5, counterexample: an opportunity with no date fields gets the
epoch-zero key, so the descending date sort places it before an
opportunity whose (usable) posted date lies before 1970 — not after all
opportunities with a usable date, as the claim states. -/
theorem sortByDate_noDate_counterexample :
    sortByDate [opp1960, oppNoDate] = [oppNoDate, opp1960]
      ∧ (dateKey opp1960).isSome = true
      ∧ oppNoDate.postedDate = none ∧ oppNoDate.deadline = none := by
  decide

/-- Claim C5 (amended): on inputs whose date fields all parse or are
absent, the date sort orders descending by the key
postedDate, else deadline, else epoch-zero — so an opportunity with
absent dates is placed after those with post-1970 dates but before any
with a pre-1970 date — and the output is a permutation of the input. -/
theorem sortByDate_spec (l : List Opportunity)
    (hdates : ∀ o ∈ l, (dateKey o).isSome) :
    (sortByDate l).Pairwise (fun a b => dateKeyTotal b ≤ dateKeyTotal a)
      ∧ (sortByDate l).Perm l :=
  ⟨sortDescBy_sorted dateKeyTotal l, sortDescBy_perm dateKeyTotal l⟩

theorem sortByDate_spec_witness :
    (∀ o ∈ [opp1960, oppNoDate], (dateKey o).isSome)
      ∧ ((sortByDate [opp1960, oppNoDate]).Pairwise
            (fun a b => dateKeyTotal b ≤ dateKeyTotal a)
          ∧ (sortByDate [opp1960, oppNoDate]).Perm [opp1960, oppNoDate]) :=
  ⟨by decide, sortByDate_spec [opp1960, oppNoDate] (by decide)⟩

def oppCacheA : Opportunity :=
  ⟨"ca", none, none, none, none, none, none, none, none, false, false, none⟩

def oppCacheB : Opportunity :=
  ⟨"cb", none, none, none, none, none, none, none, none, false, false, none⟩

def cacheWithZero : List (String × Nat) := [("ca", 0), ("cb", 10)]

/-- Claim C6, counterexample: the source reads the cache with `|| 32`,
not `?? 32`: a cached score of 0 (a legal score) is replaced by 32.  With
the cache mapping "ca" to 0 and "cb" to 10 the source keeps [ca, cb],
which is not descending by the claimed key get(id) ?? 32 (0 before 10). -/
theorem compat_sort_claim_counterexample :
    sortByCompatibility cacheWithZero [oppCacheA, oppCacheB] = [oppCacheA, oppCacheB]
      ∧ claimCompatKey cacheWithZero oppCacheA = 0
      ∧ claimCompatKey cacheWithZero oppCacheB = 10
      ∧ ¬ (sortByCompatibility cacheWithZero [oppCacheA, oppCacheB]).Pairwise
            (fun a b => claimCompatKey cacheWithZero b ≤ claimCompatKey cacheWithZero a) := by
  decide

/-- Claim C6 (amended): the compatibility sort orders descending by the
key `cache.get(id) || 32` — 32 both for an id missing from the cache and
for a cached score of 0, the cached value otherwise — and the output is a
permutation of the input. -/
theorem sortByCompatibility_spec (cache : List (String × Nat)) (l : List Opportunity) :
    (sortByCompatibility cache l).Pairwise
        (fun a b => compatKey cache b ≤ compatKey cache a)
      ∧ (sortByCompatibility cache l).Perm l :=
  ⟨sortDescBy_sorted (compatKey cache) l, sortDescBy_perm (compatKey cache) l⟩

def oppDup1 : Opportunity :=
  ⟨"d1", none, none, none, none, none, none, none, some "2025-01-01",
    false, false, none⟩

def oppDup2 : Opportunity :=
  ⟨"d2", none, none, none, none, none, none, none, some "2025-01-01",
    false, false, none⟩

/-- Claim C7: both sorts are stable — for either sort key, the
subsequence of opportunities sharing any given key value is unchanged, so
two opportunities with equal keys keep their relative input order.  The
date half is stated for inputs whose dates all parse or are absent, the
domain on which the embedded comparator models the JavaScript sort. -/
theorem sort_stable_for_equal_keys (cache : List (String × Nat))
    (l : List Opportunity) (v w : Int)
    (hdates : ∀ o ∈ l, (dateKey o).isSome) :
    (sortByCompatibility cache l).filter (fun o => compatKey cache o == v)
        = l.filter (fun o => compatKey cache o == v)
      ∧ (sortByDate l).filter (fun o => dateKeyTotal o == w)
        = l.filter (fun o => dateKeyTotal o == w) :=
  ⟨sortDescBy_filter_stable (compatKey cache) l v,
    sortDescBy_filter_stable dateKeyTotal l w⟩

theorem sort_stable_for_equal_keys_witness :
    (∀ o ∈ [oppDup1, oppDup2], (dateKey o).isSome)
      ∧ ((sortByCompatibility [] [oppDup1, oppDup2]).filter
            (fun o => compatKey [] o == 32)
          = [oppDup1, oppDup2].filter (fun o => compatKey [] o == 32)
        ∧ (sortByDate [oppDup1, oppDup2]).filter
            (fun o => dateKeyTotal o == 1735689600000)
          = [oppDup1, oppDup2].filter (fun o => dateKeyTotal o == 1735689600000)) :=
  ⟨by decide, sort_stable_for_equal_keys [] [oppDup1, oppDup2] 32 1735689600000 (by decide)⟩

/-! ### Claim C9: the bulk per-item score -/

theorem findVal_mem {β : Type} (m : List (String × β)) (k : String) (v : β)
    (h : findVal m k = some v) : (k, v) ∈ m := by
  induction m with
  | nil => cases h
  | cons e rest ih =>
      obtain ⟨k1, v1⟩ := e
      rw [findVal] at h
      by_cases hk : k1 == k
      · rw [if_pos hk] at h
        obtain rfl : v1 = v := Option.some.inj h
        have : k1 = k := by simpa using hk
        subst this
        exact List.mem_cons_self _ _
      · rw [if_neg hk] at h
        exact List.mem_cons_of_mem _ (ih h)

theorem calculateScores_good (l : List Opportunity) (k : String) (v : Nat)
    (h : (k, v) ∈ calculateScores l) : v = 32 + hashCode k % 60 := by
  have main : ∀ (t : List Opportunity) (acc : List (String × Nat)),
      (∀ k1 v1, (k1, v1) ∈ acc → v1 = 32 + hashCode k1 % 60) →
      ∀ k1 v1, (k1, v1) ∈ t.foldl
        (fun scores o =>
          if (findVal scores o.id).isSome then scores
          else scores ++ [(o.id, 32 + hashCode o.id % (92 - 32))]) acc →
        v1 = 32 + hashCode k1 % 60 := by
    intro t
    induction t with
    | nil => intro acc hacc k1 v1 hmem; exact hacc k1 v1 hmem
    | cons o rest ih =>
        intro acc hacc k1 v1 hmem
        rw [List.foldl_cons] at hmem
        refine ih _ ?_ k1 v1 hmem
        intro k2 v2 hmem2
        by_cases hin : (findVal acc o.id).isSome
        · rw [if_pos hin] at hmem2
          exact hacc k2 v2 hmem2
        · rw [if_neg hin] at hmem2
          rcases List.mem_append.mp hmem2 with h1 | h2
          · exact hacc k2 v2 h1
          · have h3 := List.mem_singleton.mp h2
            injection h3 with h4 h5
            subst h4
            subst h5
            rfl
  have h2 : (k, v) ∈ calculateScores l := h
  unfold calculateScores at h2
  exact main l [] (by intro k1 v1 hmem; cases hmem) k v h2

/-- Claim C9: any entry of the score map built by calculateScores equals
the pure function 32 + (hashCode id % 60) of its id, lies in the interval
from 32 inclusive to 92 exclusive, and recomputation over any other
opportunity list can never associate a different value with that id. -/
theorem calculateScores_spec (l : List Opportunity) (key : String) (v : Nat)
    (h : findVal (calculateScores l) key = some v) :
    v = 32 + hashCode key % 60 ∧ 32 ≤ v ∧ v < 92
      ∧ ∀ (l2 : List Opportunity) (v2 : Nat),
          findVal (calculateScores l2) key = some v2 → v2 = v := by
  have hv : v = 32 + hashCode key % 60 :=
    calculateScores_good l key v (findVal_mem _ _ _ h)
  have hlt : hashCode key % 60 < 60 := Nat.mod_lt _ (by norm_num)
  refine ⟨hv, by omega, by omega, ?_⟩
  intro l2 v2 h2
  have hv2 : v2 = 32 + hashCode key % 60 :=
    calculateScores_good l2 key v2 (findVal_mem _ _ _ h2)
  omega

def oppBulk : Opportunity :=
  ⟨"k9", none, none, none, none, none, none, none, none, false, false, none⟩

theorem calculateScores_spec_witness :
    findVal (calculateScores [oppBulk]) "k9" = some 46
      ∧ (46 = 32 + hashCode "k9" % 60 ∧ 32 ≤ 46 ∧ 46 < 92
          ∧ ∀ (l2 : List Opportunity) (v2 : Nat),
              findVal (calculateScores l2) "k9" = some v2 → v2 = 46) :=
  ⟨by decide, calculateScores_spec [oppBulk] "k9" 46 (by decide)⟩

/-! ### KeywordExtractor (src/OpportunityCard.jsx lines 46-83) -/

/-- The stop-word set, transcribed from lines 48-57. -/
def stopWords : List String :=
  ["phd", "research", "project", "study", "university", "department",
   "the", "and", "or", "in", "at", "of", "to", "for", "with", "by",
   "funded", "scholarship", "position", "available", "applications",
   "apply", "deadline", "opportunity", "program", "student", "students",
   "work", "will", "be", "is", "are", "this", "that", "we", "our", "us",
   "you", "your", "they", "their", "them", "it", "its", "have", "has",
   "had", "do", "does", "did", "can", "could", "should", "would", "may",
   "might", "must", "a", "an", "on", "from"]

def joinSep (sep : String) : List String → String
  | [] => ""
  | [x] => x
  | x :: y :: rest => x ++ sep ++ joinSep sep (y :: rest)

/-- A string field of the joined array: dropped by filter(Boolean) when
absent or empty. -/
def jsFieldStr (x : Option String) : Option String :=
  match x with
  | none => none
  | some s => if s == "" then none else some s

/-- An array field of the joined array: an array is always truthy, and
joining with spaces renders it as its comma-separated toString. -/
def jsFieldArr (x : Option (List String)) : Option String :=
  x.map (joinSep ",")

/-- Lines 60-66: concatenate the five text fields, skipping falsy ones,
join with single spaces, lower-case. -/
def keywordText (o : Opportunity) : String :=
  strToLower (joinSep " " (List.filterMap id
    [jsFieldStr o.title, jsFieldStr o.description, jsFieldStr o.department,
      jsFieldArr o.subjects, jsFieldArr o.requirements]))

/-- Split at every single whitespace character, keeping empty pieces. -/
def splitEveryWs : List Char → List (List Char)
  | [] => [[]]
  | c :: rest =>
      match splitEveryWs rest with
      | [] => [[]]
      | t :: ts => if jsIsWs c then [] :: t :: ts else (c :: t) :: ts

/-- Collapse empty pieces that are not in last position (the first piece
is handled by the caller). -/
def collapseMiddle : List (List Char) → List (List Char)
  | [] => []
  | [x] => [x]
  | x :: y :: rest =>
      if x.isEmpty then collapseMiddle (y :: rest)
      else x :: collapseMiddle (y :: rest)

/-- JavaScript `text.split(/\s+/)`: split on maximal whitespace runs; a
leading run contributes a leading empty string and a trailing run a
trailing one.  Equivalently: split at every whitespace character and drop
the empty pieces that are neither first nor last. -/
def jsSplitWhitespace (s : String) : List String :=
  match splitEveryWs s.data with
  | [] => []
  | first :: rest => (first :: collapseMiddle rest).map (fun cs => String.mk cs)

/-- JavaScript word characters, the \w class: ASCII letters, digits and
underscore. -/
def isWordChar (c : Char) : Bool :=
  c.isAlpha || c.isDigit || c == '_'

/-- Line 74: strip every character outside the word class from the token. -/
def cleanWord (w : String) : String :=
  String.mk (w.data.filter isWordChar)

/-- The tokens that survive lines 72-76: cleaned, at least 4 characters,
not stop words, in text order. -/
def keptTokens (o : Opportunity) : List String :=
  ((jsSplitWhitespace (keywordText o)).map cleanWord).filter
    (fun w => decide (4 ≤ w.length) && !stopWords.contains w)

/-- Line 76: `wordCount[cleanWord] = (wordCount[cleanWord] || 0) + 1` on
an insertion-ordered object, modelled as an association list. -/
def bumpCount : List (String × Nat) → String → List (String × Nat)
  | [], w => [(w, 1)]
  | (k, c) :: rest, w =>
      if k == w then (k, c + 1) :: rest else (k, c) :: bumpCount rest w

def wordCounts (o : Opportunity) : List (String × Nat) :=
  (keptTokens o).foldl bumpCount []

/-- Canonical array-index property keys of a JavaScript object: all-digit
strings without a leading zero (except "0") whose value is below
2^32 - 1.  Object.entries lists these first, in ascending numeric order,
before the remaining keys in insertion order. -/
def isArrayIndex (s : String) : Bool :=
  s != "" && s.data.all Char.isDigit
    && (s == "0" || s.data.head? != some '0')
    && decide (digitsToNat s.data < 4294967295)

/-- Object.entries enumeration order of the word-count object. -/
def jsEntries (m : List (String × Nat)) : List (String × Nat) :=
  sortDescBy (fun e => -(digitsToNat e.1.data : Int))
      (m.filter (fun e => isArrayIndex e.1))
    ++ m.filter (fun e => !isArrayIndex e.1)

/-- Lines 79-82: Object.entries, stable sort by descending count, top 3,
keys only. -/
def extractKeywords (o : Opportunity) : List String :=
  ((sortDescBy (fun e => (e.2 : Int)) (jsEntries (wordCounts o))).take 3).map
    (fun e => e.1)

def oppNumericToken : Opportunity :=
  ⟨"n1", some "mathematics 2025", none, none, none, none, none, none,
    none, false, false, none⟩

/-- Claim C4, counterexample: in the text "mathematics 2025" both kept
tokens occur once and "mathematics" is encountered first, yet the output
lists "2025" first: the word-count object enumerates the array-index-like
key "2025" before the insertion-ordered key "mathematics", so frequency
ties are not broken by first-encountered order. -/
theorem extractKeywords_tiebreak_counterexample :
    extractKeywords oppNumericToken = ["2025", "mathematics"]
      ∧ keptTokens oppNumericToken = ["mathematics", "2025"]
      ∧ (keptTokens oppNumericToken).count "mathematics" = 1
      ∧ (keptTokens oppNumericToken).count "2025" = 1
      ∧ extractKeywords oppNumericToken ≠ ["mathematics", "2025"] := by
  decide

/-! ### The word-count object: keys, values and enumeration order -/

/-- Value held for a key in the word-count object, 0 when absent. -/
def countVal (m : List (String × Nat)) (k : String) : Nat :=
  (findVal m k).getD 0

/-- The keys of the word-count object in insertion order: first
occurrences, in text order. -/
def firstOccurrences (l : List String) : List String :=
  l.foldl (fun acc w => if acc.contains w then acc else acc ++ [w]) []

theorem findVal_bumpCount_self (m : List (String × Nat)) (w : String) :
    findVal (bumpCount m w) w = some (countVal m w + 1) := by
  induction m with
  | nil => simp [bumpCount, findVal, countVal]
  | cons e rest ih =>
      obtain ⟨k1, c1⟩ := e
      by_cases hk : k1 = w
      · subst hk
        simp [bumpCount, findVal, countVal]
      · have hb : (k1 == w) = false := beq_false_of_ne hk
        simp [bumpCount, findVal, hb, ih, countVal]

theorem findVal_bumpCount_other (m : List (String × Nat)) (w k : String)
    (h : k ≠ w) : findVal (bumpCount m w) k = findVal m k := by
  induction m with
  | nil =>
      have hb : (w == k) = false := beq_false_of_ne (Ne.symm h)
      simp [bumpCount, findVal, hb]
  | cons e rest ih =>
      obtain ⟨k1, c1⟩ := e
      by_cases hk : k1 = w
      · subst hk
        have hb : (k1 == k) = false := beq_false_of_ne (fun he => h he.symm)
        simp [bumpCount, findVal, hb]
      · have hb : (k1 == w) = false := beq_false_of_ne hk
        simp [bumpCount, findVal, hb, ih]

theorem bumpCount_keys (m : List (String × Nat)) (w : String) :
    (bumpCount m w).map Prod.fst
      = if (m.map Prod.fst).contains w then m.map Prod.fst
        else m.map Prod.fst ++ [w] := by
  induction m with
  | nil => simp [bumpCount]
  | cons e rest ih =>
      obtain ⟨k1, c1⟩ := e
      by_cases hk : k1 = w
      · subst hk
        simp [bumpCount, List.contains_cons]
      · have hb : (k1 == w) = false := beq_false_of_ne hk
        have hb2 : (w == k1) = false := beq_false_of_ne (Ne.symm hk)
        have hstep : bumpCount ((k1, c1) :: rest) w = (k1, c1) :: bumpCount rest w := by
          simp [bumpCount, hb]
        rw [hstep, List.map_cons, List.map_cons, List.contains_cons, hb2,
          Bool.false_or, ih]
        by_cases hc : (rest.map Prod.fst).contains w
        · rw [if_pos hc, if_pos hc]
        · rw [if_neg hc, if_neg hc, List.cons_append]

theorem foldl_bumpCount_countVal (ts : List String) (m : List (String × Nat))
    (k : String) :
    countVal (ts.foldl bumpCount m) k = countVal m k + ts.count k := by
  induction ts generalizing m with
  | nil => simp
  | cons w rest ih =>
      rw [List.foldl_cons, ih]
      by_cases hk : k = w
      · subst hk
        rw [show countVal (bumpCount m k) k = countVal m k + 1 by
            rw [countVal, findVal_bumpCount_self]; rfl]
        rw [List.count_cons_self]
        omega
      · rw [show countVal (bumpCount m w) k = countVal m k by
            rw [countVal, findVal_bumpCount_other m w k hk]; rfl]
        rw [List.count_cons_of_ne hk]

theorem foldl_bumpCount_keys (ts : List String) (m : List (String × Nat)) :
    (ts.foldl bumpCount m).map Prod.fst
      = ts.foldl (fun acc w => if acc.contains w then acc else acc ++ [w])
          (m.map Prod.fst) := by
  induction ts generalizing m with
  | nil => rfl
  | cons w rest ih =>
      rw [List.foldl_cons, List.foldl_cons, ih, bumpCount_keys]

theorem wordCounts_keys (o : Opportunity) :
    (wordCounts o).map Prod.fst = firstOccurrences (keptTokens o) := by
  unfold wordCounts firstOccurrences
  exact foldl_bumpCount_keys (keptTokens o) []

theorem firstOcc_foldl_nodup (l : List String) (acc : List String)
    (h : acc.Nodup) :
    (l.foldl (fun acc w => if acc.contains w then acc else acc ++ [w]) acc).Nodup := by
  induction l generalizing acc with
  | nil => exact h
  | cons w rest ih =>
      rw [List.foldl_cons]
      apply ih
      split
      · exact h
      · rename_i hc
        rw [Bool.not_eq_true] at hc
        have hw : w ∉ acc := by simpa using hc
        simp [List.nodup_append, h, hw]

theorem firstOcc_nodup (l : List String) : (firstOccurrences l).Nodup :=
  firstOcc_foldl_nodup l [] List.nodup_nil

theorem firstOcc_foldl_subset (l : List String) (acc : List String) (x : String)
    (h : x ∈ l.foldl (fun acc w => if acc.contains w then acc else acc ++ [w]) acc) :
    x ∈ acc ∨ x ∈ l := by
  induction l generalizing acc with
  | nil => exact Or.inl h
  | cons w rest ih =>
      rw [List.foldl_cons] at h
      rcases ih _ h with h1 | h2
      · by_cases hc : acc.contains w
        · rw [if_pos hc] at h1
          exact Or.inl h1
        · rw [if_neg hc] at h1
          rcases List.mem_append.mp h1 with h3 | h4
          · exact Or.inl h3
          · exact Or.inr (List.mem_cons.mpr (Or.inl (List.mem_singleton.mp h4)))
      · exact Or.inr (List.mem_cons.mpr (Or.inr h2))

theorem firstOcc_subset (l : List String) (x : String)
    (h : x ∈ firstOccurrences l) : x ∈ l :=
  (firstOcc_foldl_subset l [] x h).resolve_left (List.not_mem_nil x)

theorem findVal_eq_of_mem (m : List (String × Nat)) (k : String) (c : Nat)
    (hnd : (m.map Prod.fst).Nodup) (h : (k, c) ∈ m) : findVal m k = some c := by
  induction m with
  | nil => cases h
  | cons e rest ih =>
      obtain ⟨k1, c1⟩ := e
      rw [List.map_cons, List.nodup_cons] at hnd
      obtain ⟨hk1, hnd2⟩ := hnd
      rcases List.mem_cons.mp h with h1 | h2
      · injection h1 with e1 e2
        subst e1
        subst e2
        simp [findVal]
      · have hne : k1 ≠ k := by
          intro he
          subst he
          exact hk1 (List.mem_map.mpr ⟨(k1, c), h2, rfl⟩)
        have hb : (k1 == k) = false := beq_false_of_ne hne
        simp only [findVal, hb, if_false]
        exact ih hnd2 h2

theorem wordCounts_keys_nodup (o : Opportunity) :
    ((wordCounts o).map Prod.fst).Nodup := by
  rw [wordCounts_keys]
  exact firstOcc_nodup _

theorem mem_wordCounts_count (o : Opportunity) (k : String) (c : Nat)
    (h : (k, c) ∈ wordCounts o) : c = (keptTokens o).count k := by
  have hf : findVal (wordCounts o) k = some c :=
    findVal_eq_of_mem _ _ _ (wordCounts_keys_nodup o) h
  have hc : countVal (wordCounts o) k = (keptTokens o).count k := by
    have h2 := foldl_bumpCount_countVal (keptTokens o) [] k
    simpa [wordCounts, countVal, findVal] using h2
  rw [countVal, hf] at hc
  simpa using hc

theorem mem_wordCounts_keptTokens (o : Opportunity) (k : String) (c : Nat)
    (h : (k, c) ∈ wordCounts o) : k ∈ keptTokens o := by
  have h2 : k ∈ (wordCounts o).map Prod.fst :=
    List.mem_map.mpr ⟨(k, c), h, rfl⟩
  rw [wordCounts_keys] at h2
  exact firstOcc_subset _ _ h2

theorem keptTokens_prop (o : Opportunity) (k : String)
    (h : k ∈ keptTokens o) : 4 ≤ k.length ∧ k ∉ stopWords := by
  unfold keptTokens at h
  obtain ⟨-, hp⟩ := List.mem_filter.mp h
  rw [Bool.and_eq_true] at hp
  obtain ⟨h3, h4⟩ := hp
  refine ⟨of_decide_eq_true h3, ?_⟩
  intro hmem
  rw [Bool.not_eq_true'] at h4
  simp [List.contains] at h4
  exact h4 hmem

theorem jsEntries_perm (m : List (String × Nat)) : (jsEntries m).Perm m := by
  unfold jsEntries
  refine List.Perm.trans (List.Perm.append ?_ (List.Perm.refl _))
    (List.filter_append_perm (fun e => isArrayIndex e.1) m)
  exact sortDescBy_perm _ _

theorem mem_extractKeywords (o : Opportunity) (w : String)
    (h : w ∈ extractKeywords o) : ∃ c, (w, c) ∈ wordCounts o := by
  unfold extractKeywords at h
  obtain ⟨e, he, heq⟩ := List.mem_map.mp h
  have h1 : e ∈ sortDescBy (fun e => (e.2 : Int)) (jsEntries (wordCounts o)) :=
    (List.take_sublist 3 _).subset he
  have h2 : e ∈ jsEntries (wordCounts o) := (sortDescBy_perm _ _).mem_iff.mp h1
  have h3 : e ∈ wordCounts o := (jsEntries_perm _).mem_iff.mp h2
  exact ⟨e.2, by rw [← heq]; simpa using h3⟩

def oppEmptyFields : Opportunity :=
  ⟨"e0", none, none, none, none, none, none, none, none, false, false, none⟩

/-- Claim C4 (amended): extractKeywords returns at most 3 strings, each of
length at least 4 and none in the stop-word set, ordered by descending
frequency in the kept-token sequence; frequency ties are broken by the
enumeration order of the word-count object — keys that are canonical
array-index numerals first, in ascending numeric value, then the
remaining keys in insertion order, which is first-encountered order; all
five text fields absent yields the empty sequence. -/
theorem extractKeywords_spec (o : Opportunity) :
    (extractKeywords o).length ≤ 3
      ∧ (∀ w ∈ extractKeywords o, 4 ≤ w.length ∧ w ∉ stopWords)
      ∧ (extractKeywords o).Pairwise
          (fun a b => (keptTokens o).count b ≤ (keptTokens o).count a)
      ∧ (∀ n : Int,
          (sortDescBy (fun e => (e.2 : Int)) (jsEntries (wordCounts o))).filter
              (fun e => (e.2 : Int) == n)
            = (jsEntries (wordCounts o)).filter (fun e => (e.2 : Int) == n))
      ∧ (wordCounts o).map Prod.fst = firstOccurrences (keptTokens o)
      ∧ (o.title = none → o.description = none → o.department = none →
          o.subjects = none → o.requirements = none → extractKeywords o = []) := by
  refine ⟨?_, ?_, ?_, ?_, wordCounts_keys o, ?_⟩
  · unfold extractKeywords
    rw [List.length_map, List.length_take]
    omega
  · intro w hw
    obtain ⟨c, hmem⟩ := mem_extractKeywords o w hw
    exact keptTokens_prop o w (mem_wordCounts_keptTokens o w c hmem)
  · have hs := sortDescBy_sorted (fun e => (e.2 : Int)) (jsEntries (wordCounts o))
    have ht := List.Pairwise.sublist (List.take_sublist 3 _) hs
    unfold extractKeywords
    rw [List.pairwise_map]
    refine ht.imp_of_mem ?_
    intro a b ha hb hr
    have hmem : ∀ e : String × Nat,
        e ∈ (sortDescBy (fun e => (e.2 : Int)) (jsEntries (wordCounts o))).take 3 →
        e ∈ wordCounts o := by
      intro e he
      exact (jsEntries_perm _).mem_iff.mp ((sortDescBy_perm _ _).mem_iff.mp
        ((List.take_sublist 3 _).subset he))
    have hca : a.2 = (keptTokens o).count a.1 := by
      have h2 := hmem a ha
      exact mem_wordCounts_count o a.1 a.2 (by simpa using h2)
    have hcb : b.2 = (keptTokens o).count b.1 := by
      have h2 := hmem b hb
      exact mem_wordCounts_count o b.1 b.2 (by simpa using h2)
    rw [← hca, ← hcb]
    exact_mod_cast hr
  · intro n
    exact sortDescBy_filter_stable (fun e => (e.2 : Int)) (jsEntries (wordCounts o)) n
  · intro h1 h2 h3 h4 h5
    unfold extractKeywords wordCounts keptTokens keywordText
    rw [h1, h2, h3, h4, h5]
    rfl

theorem extractKeywords_spec_witness :
    oppEmptyFields.title = none ∧ extractKeywords oppEmptyFields = [] :=
  ⟨rfl, (extractKeywords_spec oppEmptyFields).2.2.2.2.2 rfl rfl rfl rfl rfl⟩

/-- Claim C10: the keyword list never contains a duplicate: keywords are
the keys of the word-count object, which are distinct, and sorting,
truncation and projection preserve that. -/
theorem extractKeywords_nodup (o : Opportunity) : (extractKeywords o).Nodup := by
  have h1 : ((wordCounts o).map Prod.fst).Nodup := wordCounts_keys_nodup o
  have h2 : ((jsEntries (wordCounts o)).map Prod.fst).Nodup :=
    ((jsEntries_perm (wordCounts o)).map Prod.fst).nodup_iff.mpr h1
  have h3 : ((sortDescBy (fun e => (e.2 : Int))
      (jsEntries (wordCounts o))).map Prod.fst).Nodup :=
    ((sortDescBy_perm _ _).map Prod.fst).nodup_iff.mpr h2
  have h4 : List.Sublist (extractKeywords o)
      ((sortDescBy (fun e => (e.2 : Int)) (jsEntries (wordCounts o))).map Prod.fst) :=
    List.Sublist.map Prod.fst (List.take_sublist 3 _)
  exact List.Nodup.sublist h4 h3

end AV
